import Mathlib

/-!
Shallow embedding of the `picamfeedsplitter` repository: the frame record
(`src/frame.rs`), the publisher's plane-gathering and publish step
(`src/main.rs`), and the subscriber's depadding and encoder-pipe session
(`examples/webrtc_streamer.rs`).  Bytes are modelled as `Nat`, byte buffers
as `List Nat`; a Rust slice-index panic is modelled by `Option` (`none`).
-/

/-- Max frame size: 1080p YUV420 = 1920 * 1080 * 1.5 (from `src/frame.rs`). -/
def MAX_FRAME_SIZE : Nat := 1920 * 1080 * 3 / 2

/-- Pixel format identifier (from `src/frame.rs`). -/
inductive PixelFormat where
  | Yuv420
  | Nv12
  | Nv21
  | Unknown
  deriving DecidableEq, Repr

/-- The `repr(C)` discriminant value of each `PixelFormat` variant
(the fourcc codes from `src/frame.rs`); each fits in 32 bits, so the
C-compatible enum representation is a 4-byte field. -/
def PixelFormat.tag : PixelFormat → Nat
  | .Yuv420 => 0x32315559
  | .Nv12 => 0x3231564E
  | .Nv21 => 0x3132564E
  | .Unknown => 0

/-- Rust range slice `&xs[a..b]`: `none` models the panic when `a > b` or
`b > xs.length`. -/
def rslice (xs : List Nat) (a b : Nat) : Option (List Nat) :=
  if a ≤ b ∧ b ≤ xs.length then some ((xs.drop a).take (b - a)) else none

/-- The row-copy loop shared by both depad functions: starting at row `r`,
append `n` rows, where row `r` is `plane[r*srow .. r*srow + drow]`
(`out.extend_from_slice(&plane[row * s..row * s + w])` in the source). -/
def rowsGo (plane : List Nat) (srow drow : Nat) (r : Nat) : Nat → Option (List Nat)
  | 0 => some []
  | n + 1 =>
    match rslice plane (r * srow) (r * srow + drow) with
    | none => none
    | some x =>
      match rowsGo plane srow drow (r + 1) n with
      | none => none
      | some xs => some (x ++ xs)

/-- `depad_yuv420` from `examples/webrtc_streamer.rs`: remove stride padding
from YUV420 (I420) frame data.  The `out` parameter is the reusable scratch
buffer; the function clears it first (`out.clear()`), modelled by the
shadowing `let`.  `none` models a slice-index panic. -/
def depad_yuv420 (data : List Nat) (width height stride : Nat) (out : List Nat) :
    Option (List Nat) :=
  let out : List Nat := []
  let w := width
  let h := height
  let s := stride
  match rslice data 0 (s * h) with
  | none => none
  | some y_plane =>
    match rowsGo y_plane s w 0 h with
    | none => none
    | some ys =>
      let u_offset := s * h
      match rslice data u_offset (u_offset + (s / 2) * (h / 2)) with
      | none => none
      | some u_plane =>
        match rowsGo u_plane (s / 2) (w / 2) 0 (h / 2) with
        | none => none
        | some us =>
          let v_offset := u_offset + (s / 2) * (h / 2)
          match rslice data v_offset (v_offset + (s / 2) * (h / 2)) with
          | none => none
          | some v_plane =>
            match rowsGo v_plane (s / 2) (w / 2) 0 (h / 2) with
            | none => none
            | some vs => some (out ++ ys ++ us ++ vs)

/-- `depad_nv12` from `examples/webrtc_streamer.rs`: remove stride padding
from NV12 frame data (Y plane then interleaved UV plane). -/
def depad_nv12 (data : List Nat) (width height stride : Nat) (out : List Nat) :
    Option (List Nat) :=
  let out : List Nat := []
  let w := width
  let h := height
  let s := stride
  match rslice data 0 (s * h) with
  | none => none
  | some y_plane =>
    match rowsGo y_plane s w 0 h with
    | none => none
    | some ys =>
      let uv_offset := s * h
      match rslice data uv_offset (uv_offset + s * (h / 2)) with
      | none => none
      | some uv_plane =>
        match rowsGo uv_plane s w 0 (h / 2) with
        | none => none
        | some uvs => some (out ++ ys ++ uvs)

/-- The encoder pixel-format tag chosen by the subscriber
(`match format` in `examples/webrtc_streamer.rs`). -/
def ffmpeg_pix_fmt : PixelFormat → String
  | .Yuv420 => "yuv420p"
  | .Nv12 => "nv12"
  | .Nv21 => "nv21"
  | .Unknown => "nv12"

/-- The depad-strategy dispatch (`depad_fn` in `examples/webrtc_streamer.rs`):
`Yuv420` uses the three-plane function, everything else the two-plane one. -/
def depadFn (fmt : PixelFormat) :
    List Nat → Nat → Nat → Nat → List Nat → Option (List Nat) :=
  match fmt with
  | .Yuv420 => depad_yuv420
  | _ => depad_nv12

/-- Total source-plane bytes read by the depad strategy of a format:
`stride*height + 2*((stride/2)*(height/2))` for Yuv420 (three planes),
`stride*height + stride*(height/2)` for the NV12-shaped strategies. -/
def requiredLen (fmt : PixelFormat) (stride height : Nat) : Nat :=
  match fmt with
  | .Yuv420 => stride * height + 2 * ((stride / 2) * (height / 2))
  | _ => stride * height + stride * (height / 2)

/-- One published frame record as filled in by the publisher
(`sample.write_payload(Frame { ... })` in `src/main.rs`): the `sequence`,
`len` and `data` fields that the per-capture loop computes.  The fixed
per-session fields (width, height, stride, format, timestamp) are omitted. -/
structure PubFrame where
  sequence : Nat
  len : Nat
  data : List Nat
  deriving DecidableEq, Repr

/-- Publisher loop state: the `seq` counter and the frames published so far
(in send order). -/
structure PubState where
  seq : Nat
  published : List PubFrame
  deriving DecidableEq, Repr

/-- The plane-gathering loop of `src/main.rs` (`for (i, plane_data) in
planes.iter().enumerate()`): `bytes_used` is `plane_metadata.get(i)`'s
`bytes_used`, defaulting to the plane length when metadata for index `i`
is absent; if the running offset plus `bytes_used` would exceed
`MAX_FRAME_SIZE` the loop breaks, keeping the bytes accumulated so far;
otherwise `plane_data[..bytes_used]` is copied (`none` models the panic of
that slice when `bytes_used` exceeds the plane length). -/
def gatherGo (planeMeta : List Nat) (i : Nat) (planes : List (List Nat))
    (acc : List Nat) : Option (List Nat) :=
  match planes with
  | [] => some acc
  | p :: rest =>
    let bytes_used := planeMeta.getD i p.length
    if acc.length + bytes_used > MAX_FRAME_SIZE then some acc
    else if bytes_used > p.length then none
    else gatherGo planeMeta (i + 1) rest (acc ++ p.take bytes_used)

/-- Gather all plane bytes of one completed capture into the contiguous
frame buffer (`frame_data` / `offset` in `src/main.rs`); the result list is
the first `offset` bytes of `frame_data`. -/
def gatherPlanes (planes : List (List Nat)) (planeMeta : List Nat) :
    Option (List Nat) :=
  gatherGo planeMeta 0 planes []

/-- One iteration of the publisher's capture loop after a completed request
(`src/main.rs`): gather the planes; if any bytes were gathered
(`offset > 0`), publish a frame carrying the current `seq` when the loan
succeeds (a loan failure publishes nothing), and increment `seq` either
way; if no bytes were gathered, state is unchanged. -/
def stepPublish (st : PubState) (planes : List (List Nat))
    (planeMeta : List Nat) (loanOk : Bool) : Option PubState :=
  match gatherPlanes planes planeMeta with
  | none => none
  | some acc =>
    if acc.length > 0 then
      let pub := if loanOk then st.published ++ [⟨st.seq, acc.length, acc⟩]
                 else st.published
      some ⟨st.seq + 1, pub⟩
    else some st

/-- One completed capture as seen by the publisher loop: the mapped plane
byte buffers, the per-plane `bytes_used` metadata, and whether the
shared-memory loan succeeds for it. -/
structure CapEvent where
  planes : List (List Nat)
  planeMeta : List Nat
  loanOk : Bool

/-- Run the capture loop from a given state over a list of completed
captures. -/
def runPubFrom (st : PubState) : List CapEvent → Option PubState
  | [] => some st
  | e :: rest =>
    match stepPublish st e.planes e.planeMeta e.loanOk with
    | none => none
    | some st' => runPubFrom st' rest

/-- Run the capture loop from the initial state (`let mut seq: u64 = 0;`
and nothing published). -/
def runPub (events : List CapEvent) : Option PubState :=
  runPubFrom ⟨0, []⟩ events

/-- How the subscriber's write session ends (`examples/webrtc_streamer.rs`):
`cleanExit` is the `break` path — drop the pipe handle, wait for the child,
return `Ok(())`; `errExit` is an error propagated out of `main` by `?`. -/
inductive SubExit where
  | cleanExit
  | errExit
  deriving DecidableEq, Repr

/-- The subscriber's steady-state loop over the outcomes of successive pipe
writes: a failed write (`false`) breaks out, leading to the clean exit;
`none` means the trace ended with the loop still running. -/
def loopRun : List Bool → Option SubExit
  | [] => none
  | true :: rest => loopRun rest
  | false :: _ => some SubExit.cleanExit

/-- The subscriber's whole write session: the first frame is written with
`stdin.write_all(..)?`, so a failure there propagates the error out of
`main`; only afterwards does the loop (whose failures `break`) run. -/
def subSession (firstOk : Bool) (rest : List Bool) : Option SubExit :=
  if firstOk then loopRun rest else some SubExit.errExit

/-- Round `off` up to the next multiple of the alignment `a`. -/
def alignUp (off a : Nat) : Nat := (off + a - 1) / a * a

/-- C struct layout: fold the `(size, align)` fields left to right,
aligning the running offset before each field, and track the maximal
alignment. -/
def layoutStep (st : Nat × Nat) (f : Nat × Nat) : Nat × Nat :=
  (alignUp st.1 f.2 + f.1, max st.2 f.2)

/-- Byte offset at which a field with alignment `a` would be placed after
the given fields. -/
def fieldOffset (fields : List (Nat × Nat)) (a : Nat) : Nat :=
  alignUp (fields.foldl layoutStep (0, 1)).1 a

/-- Total `repr(C)` size of a struct with the given `(size, align)` fields:
the end offset rounded up to the struct alignment. -/
def structSize (fields : List (Nat × Nat)) : Nat :=
  let st := fields.foldl layoutStep (0, 1)
  alignUp st.1 st.2

/-- The `(size, align)` pairs of the `Frame` fields before `data`
(`src/frame.rs`): `timestamp_ns : u64`, `sequence : u64`, `width : u32`,
`height : u32`, `stride : u32`, `format : PixelFormat` (a `repr(C)` enum
whose discriminants all fit in 32 bits, hence a 4-byte field), `len : u32`. -/
def frameMetaFields : List (Nat × Nat) :=
  [(8, 8), (8, 8), (4, 4), (4, 4), (4, 4), (4, 4), (4, 4)]

/-- All `Frame` fields: the metadata fields followed by
`data : [u8; MAX_FRAME_SIZE]` (size `MAX_FRAME_SIZE`, align 1). -/
def frameFields : List (Nat × Nat) :=
  frameMetaFields ++ [(MAX_FRAME_SIZE, 1)]

/-- The bytes the plane loop of `src/main.rs` appends for each plane when
nothing overflows: plane `j` (at metadata index `i + j`) contributes its
first `bytes_used` bytes, where `bytes_used` defaults to the plane length
when metadata for that index is absent. -/
def planeTake (planeMeta : List Nat) : Nat → List (List Nat) → List Nat
  | _, [] => []
  | i, p :: rest =>
    p.take (planeMeta.getD i p.length) ++ planeTake planeMeta (i + 1) rest

/-- Total `bytes_used` over the planes, starting at metadata index `i`. -/
def planeSum (planeMeta : List Nat) : Nat → List (List Nat) → Nat
  | _, [] => 0
  | i, p :: rest => planeMeta.getD i p.length + planeSum planeMeta (i + 1) rest

/-- Invariant of the publisher loop: the sequence values of the published
frames are strictly increasing, and all of them are below the current
`seq` counter. -/
def PubInv (st : PubState) : Prop :=
  List.Pairwise (· < ·) (st.published.map PubFrame.sequence) ∧
  ∀ f ∈ st.published, f.sequence < st.seq

/-! ### Lemmas about slices and the row-copy loop -/

theorem rslice_eq (xs : List Nat) (a b : Nat) (h1 : a ≤ b) (h2 : b ≤ xs.length) :
    rslice xs a b = some ((xs.drop a).take (b - a)) := by
  unfold rslice
  rw [if_pos ⟨h1, h2⟩]

theorem rowsGo_spec (plane : List Nat) (srow drow : Nat) (hd : drow ≤ srow) :
    ∀ n r, (r + n) * srow ≤ plane.length →
    ∃ xs, rowsGo plane srow drow r n = some xs ∧ xs.length = n * drow := by
  intro n
  induction n with
  | zero => intro r _; exact ⟨[], rfl, by simp⟩
  | succ n ih =>
    intro r hlen
    have hb : r * srow + drow ≤ plane.length :=
      calc r * srow + drow ≤ r * srow + srow := by omega
        _ = (r + 1) * srow := by ring
        _ ≤ (r + (n + 1)) * srow := by
            apply Nat.mul_le_mul_right
            omega
        _ ≤ plane.length := hlen
    obtain ⟨xs, hxs, hlxs⟩ := ih (r + 1) (by
      rw [show (r + 1 + n) * srow = (r + (n + 1)) * srow from by ring]
      exact hlen)
    refine ⟨(plane.drop (r * srow)).take drow ++ xs, ?_, ?_⟩
    · have hs : rslice plane (r * srow) (r * srow + drow)
          = some ((plane.drop (r * srow)).take drow) := by
        rw [rslice_eq plane _ _ (by omega) hb,
          show r * srow + drow - r * srow = drow from by omega]
      simp only [rowsGo, hs, hxs]
    · have hlt : ((plane.drop (r * srow)).take drow).length = drow := by
        simp only [List.length_take, List.length_drop]
        omega
      simp only [List.length_append, hlt, hlxs]
      ring

theorem rowsGo_compact (plane : List Nat) (w : Nat) :
    ∀ n r, (r + n) * w ≤ plane.length →
    rowsGo plane w w r n = some ((plane.drop (r * w)).take (n * w)) := by
  intro n
  induction n with
  | zero => intro r _; simp [rowsGo]
  | succ n ih =>
    intro r hlen
    have hb : r * w + w ≤ plane.length :=
      calc r * w + w = (r + 1) * w := by ring
        _ ≤ (r + (n + 1)) * w := by
            apply Nat.mul_le_mul_right
            omega
        _ ≤ plane.length := hlen
    have hs : rslice plane (r * w) (r * w + w)
        = some ((plane.drop (r * w)).take w) := by
      rw [rslice_eq plane _ _ (by omega) hb,
        show r * w + w - r * w = w from by omega]
    have hrec := ih (r + 1) (by
      rw [show (r + 1 + n) * w = (r + (n + 1)) * w from by ring]
      exact hlen)
    simp only [rowsGo, hs, hrec]
    congr 1
    have hsplit : (plane.drop (r * w)).take ((n + 1) * w)
        = (plane.drop (r * w)).take w ++ ((plane.drop (r * w)).drop w).take (n * w) := by
      rw [← List.take_add]
      congr 1
      ring
    rw [hsplit, List.drop_drop, show r * w + w = (r + 1) * w from by ring]

theorem depad_yuv420_spec (d : List Nat) (w h s : Nat) (out : List Nat)
    (hws : w ≤ s) (hlen : s * h + 2 * ((s / 2) * (h / 2)) ≤ d.length) :
    ∃ r, depad_yuv420 d w h s out = some r ∧
      r.length = h * w + 2 * ((h / 2) * (w / 2)) := by
  have hy : rslice d 0 (s * h) = some (d.take (s * h)) := by
    rw [rslice_eq d 0 (s * h) (Nat.zero_le _) (by omega)]
    simp
  have hylen : (d.take (s * h)).length = s * h := by
    simp only [List.length_take]
    omega
  obtain ⟨ys, hys, hlys⟩ := rowsGo_spec (d.take (s * h)) s w hws h 0
    (by rw [hylen, Nat.zero_add, Nat.mul_comm])
  have hu : rslice d (s * h) (s * h + (s / 2) * (h / 2))
      = some ((d.drop (s * h)).take ((s / 2) * (h / 2))) := by
    rw [rslice_eq d _ _ (by omega) (by omega),
      show s * h + s / 2 * (h / 2) - s * h = s / 2 * (h / 2) from by omega]
  have hulen : ((d.drop (s * h)).take ((s / 2) * (h / 2))).length
      = (s / 2) * (h / 2) := by
    simp only [List.length_take, List.length_drop]
    omega
  obtain ⟨us, hus, hlus⟩ := rowsGo_spec ((d.drop (s * h)).take ((s / 2) * (h / 2)))
    (s / 2) (w / 2) (Nat.div_le_div_right hws) (h / 2) 0
    (by rw [hulen, Nat.zero_add, Nat.mul_comm])
  have hv : rslice d (s * h + (s / 2) * (h / 2))
      (s * h + (s / 2) * (h / 2) + (s / 2) * (h / 2))
      = some ((d.drop (s * h + (s / 2) * (h / 2))).take ((s / 2) * (h / 2))) := by
    rw [rslice_eq d _ _ (by omega) (by omega),
      show s * h + s / 2 * (h / 2) + s / 2 * (h / 2) - (s * h + s / 2 * (h / 2))
        = s / 2 * (h / 2) from by omega]
  have hvlen : ((d.drop (s * h + (s / 2) * (h / 2))).take ((s / 2) * (h / 2))).length
      = (s / 2) * (h / 2) := by
    simp only [List.length_take, List.length_drop]
    omega
  obtain ⟨vs, hvs, hlvs⟩ := rowsGo_spec
    ((d.drop (s * h + (s / 2) * (h / 2))).take ((s / 2) * (h / 2)))
    (s / 2) (w / 2) (Nat.div_le_div_right hws) (h / 2) 0
    (by rw [hvlen, Nat.zero_add, Nat.mul_comm])
  refine ⟨ys ++ us ++ vs, ?_, ?_⟩
  · simp only [depad_yuv420, hy, hys, hu, hus, hv, hvs, List.nil_append]
  · simp only [List.length_append, hlys, hlus, hlvs]
    omega

theorem depad_nv12_spec (d : List Nat) (w h s : Nat) (out : List Nat)
    (hws : w ≤ s) (hlen : s * h + s * (h / 2) ≤ d.length) :
    ∃ r, depad_nv12 d w h s out = some r ∧
      r.length = h * w + (h / 2) * w := by
  have hy : rslice d 0 (s * h) = some (d.take (s * h)) := by
    rw [rslice_eq d 0 (s * h) (Nat.zero_le _) (by omega)]
    simp
  have hylen : (d.take (s * h)).length = s * h := by
    simp only [List.length_take]
    omega
  obtain ⟨ys, hys, hlys⟩ := rowsGo_spec (d.take (s * h)) s w hws h 0
    (by rw [hylen, Nat.zero_add, Nat.mul_comm])
  have huv : rslice d (s * h) (s * h + s * (h / 2))
      = some ((d.drop (s * h)).take (s * (h / 2))) := by
    rw [rslice_eq d _ _ (by omega) (by omega),
      show s * h + s * (h / 2) - s * h = s * (h / 2) from by omega]
  have huvlen : ((d.drop (s * h)).take (s * (h / 2))).length = s * (h / 2) := by
    simp only [List.length_take, List.length_drop]
    omega
  obtain ⟨uvs, huvs, hluvs⟩ := rowsGo_spec ((d.drop (s * h)).take (s * (h / 2)))
    s w hws (h / 2) 0
    (by rw [huvlen, Nat.zero_add, Nat.mul_comm])
  refine ⟨ys ++ uvs, ?_, ?_⟩
  · simp only [depad_nv12, hy, hys, huv, huvs, List.nil_append]
  · simp only [List.length_append, hlys, hluvs]

theorem depad_yuv420_compact (d : List Nat) (w h : Nat) (out : List Nat)
    (hlen : w * h + 2 * ((w / 2) * (h / 2)) ≤ d.length) :
    depad_yuv420 d w h w out
      = some (d.take (w * h + 2 * ((w / 2) * (h / 2)))) := by
  have hy : rslice d 0 (w * h) = some (d.take (w * h)) := by
    rw [rslice_eq d 0 (w * h) (Nat.zero_le _) (by omega)]
    simp
  have hylen : (d.take (w * h)).length = w * h := by
    simp only [List.length_take]
    omega
  have hys : rowsGo (d.take (w * h)) w w 0 h = some (d.take (w * h)) := by
    rw [rowsGo_compact (d.take (w * h)) w h 0
      (by rw [hylen, Nat.zero_add, Nat.mul_comm]),
      Nat.zero_mul, List.drop_zero, Nat.mul_comm h w, List.take_take,
      Nat.min_self]
  have hu : rslice d (w * h) (w * h + (w / 2) * (h / 2))
      = some ((d.drop (w * h)).take ((w / 2) * (h / 2))) := by
    rw [rslice_eq d _ _ (by omega) (by omega),
      show w * h + w / 2 * (h / 2) - w * h = w / 2 * (h / 2) from by omega]
  have hulen : ((d.drop (w * h)).take ((w / 2) * (h / 2))).length
      = (w / 2) * (h / 2) := by
    simp only [List.length_take, List.length_drop]
    omega
  have hus : rowsGo ((d.drop (w * h)).take ((w / 2) * (h / 2))) (w / 2) (w / 2)
      0 (h / 2) = some ((d.drop (w * h)).take ((w / 2) * (h / 2))) := by
    rw [rowsGo_compact ((d.drop (w * h)).take ((w / 2) * (h / 2))) (w / 2)
      (h / 2) 0 (by rw [hulen, Nat.zero_add, Nat.mul_comm]),
      Nat.zero_mul, List.drop_zero, Nat.mul_comm (h / 2) (w / 2),
      List.take_take, Nat.min_self]
  have hv : rslice d (w * h + (w / 2) * (h / 2))
      (w * h + (w / 2) * (h / 2) + (w / 2) * (h / 2))
      = some ((d.drop (w * h + (w / 2) * (h / 2))).take ((w / 2) * (h / 2))) := by
    rw [rslice_eq d _ _ (by omega) (by omega),
      show w * h + w / 2 * (h / 2) + w / 2 * (h / 2) - (w * h + w / 2 * (h / 2))
        = w / 2 * (h / 2) from by omega]
  have hvlen : ((d.drop (w * h + (w / 2) * (h / 2))).take ((w / 2) * (h / 2))).length
      = (w / 2) * (h / 2) := by
    simp only [List.length_take, List.length_drop]
    omega
  have hvs : rowsGo ((d.drop (w * h + (w / 2) * (h / 2))).take ((w / 2) * (h / 2)))
      (w / 2) (w / 2) 0 (h / 2)
      = some ((d.drop (w * h + (w / 2) * (h / 2))).take ((w / 2) * (h / 2))) := by
    rw [rowsGo_compact ((d.drop (w * h + (w / 2) * (h / 2))).take ((w / 2) * (h / 2)))
      (w / 2) (h / 2) 0 (by rw [hvlen, Nat.zero_add, Nat.mul_comm]),
      Nat.zero_mul, List.drop_zero, Nat.mul_comm (h / 2) (w / 2),
      List.take_take, Nat.min_self]
  simp only [depad_yuv420, hy, hys, hu, hus, hv, hvs, List.nil_append]
  rw [show w * h + 2 * ((w / 2) * (h / 2))
      = w * h + (w / 2 * (h / 2) + w / 2 * (h / 2)) from by ring,
    List.take_add, List.take_add, List.drop_drop, List.append_assoc]

theorem depad_nv12_compact (d : List Nat) (w h : Nat) (out : List Nat)
    (hlen : w * h + w * (h / 2) ≤ d.length) :
    depad_nv12 d w h w out = some (d.take (w * h + w * (h / 2))) := by
  have hy : rslice d 0 (w * h) = some (d.take (w * h)) := by
    rw [rslice_eq d 0 (w * h) (Nat.zero_le _) (by omega)]
    simp
  have hylen : (d.take (w * h)).length = w * h := by
    simp only [List.length_take]
    omega
  have hys : rowsGo (d.take (w * h)) w w 0 h = some (d.take (w * h)) := by
    rw [rowsGo_compact (d.take (w * h)) w h 0
      (by rw [hylen, Nat.zero_add, Nat.mul_comm]),
      Nat.zero_mul, List.drop_zero, Nat.mul_comm h w, List.take_take,
      Nat.min_self]
  have huv : rslice d (w * h) (w * h + w * (h / 2))
      = some ((d.drop (w * h)).take (w * (h / 2))) := by
    rw [rslice_eq d _ _ (by omega) (by omega),
      show w * h + w * (h / 2) - w * h = w * (h / 2) from by omega]
  have huvlen : ((d.drop (w * h)).take (w * (h / 2))).length = w * (h / 2) := by
    simp only [List.length_take, List.length_drop]
    omega
  have huvs : rowsGo ((d.drop (w * h)).take (w * (h / 2))) w w 0 (h / 2)
      = some ((d.drop (w * h)).take (w * (h / 2))) := by
    rw [rowsGo_compact ((d.drop (w * h)).take (w * (h / 2))) w (h / 2) 0
      (by rw [huvlen, Nat.zero_add, Nat.mul_comm]),
      Nat.zero_mul, List.drop_zero, Nat.mul_comm (h / 2) w, List.take_take,
      Nat.min_self]
  simp only [depad_nv12, hy, hys, huv, huvs, List.nil_append]
  rw [List.take_add]

/-! ### Lemmas about the publisher -/

theorem gatherGo_spec (planeMeta : List Nat) :
    ∀ planes : List (List Nat), ∀ i : Nat, ∀ acc : List Nat,
    (∀ j, j < planes.length →
      planeMeta.getD (i + j) ((planes.getD j []).length)
        ≤ (planes.getD j []).length) →
    acc.length + planeSum planeMeta i planes ≤ MAX_FRAME_SIZE →
    gatherGo planeMeta i planes acc = some (acc ++ planeTake planeMeta i planes) := by
  intro planes
  induction planes with
  | nil => intro i acc _ _; simp [gatherGo, planeTake]
  | cons p rest ih =>
    intro i acc hin hmax
    have hbu : planeMeta.getD i p.length ≤ p.length := by
      have h0 := hin 0 (by simp)
      simpa using h0
    have hsum : acc.length + (planeMeta.getD i p.length
        + planeSum planeMeta (i + 1) rest) ≤ MAX_FRAME_SIZE := by
      simpa [planeSum] using hmax
    have hrec := ih (i + 1) (acc ++ p.take (planeMeta.getD i p.length))
      (by
        intro j hj
        have hjj := hin (j + 1) (by simpa using Nat.succ_lt_succ hj)
        simpa [show i + (j + 1) = i + 1 + j from by omega] using hjj)
      (by
        have hlt : (acc ++ p.take (planeMeta.getD i p.length)).length
            = acc.length + planeMeta.getD i p.length := by
          simp only [List.length_append, List.length_take]
          omega
        rw [hlt]
        omega)
    simp only [gatherGo, planeTake]
    rw [if_neg (by omega : ¬ acc.length + planeMeta.getD i p.length > MAX_FRAME_SIZE),
      if_neg (by omega : ¬ planeMeta.getD i p.length > p.length), hrec,
      List.append_assoc]

theorem stepPublish_inv (st st' : PubState) (planes : List (List Nat))
    (planeMeta : List Nat) (loanOk : Bool)
    (hstep : stepPublish st planes planeMeta loanOk = some st')
    (hinv : PubInv st) : PubInv st' := by
  unfold stepPublish at hstep
  split at hstep
  · exact absurd hstep (by simp)
  next acc _hg =>
    by_cases hpos : acc.length > 0
    · rw [if_pos hpos] at hstep
      simp only [Option.some.injEq] at hstep
      have hseq : st'.seq = st.seq + 1 := by rw [← hstep]
      have hpub : st'.published
          = (if loanOk = true
             then st.published ++ [⟨st.seq, acc.length, acc⟩]
             else st.published) := by rw [← hstep]
      refine ⟨?_, ?_⟩
      · rw [hpub]
        cases loanOk with
        | false => simpa using hinv.1
        | true =>
          simp only [if_true]
          rw [List.map_append, List.pairwise_append]
          refine ⟨hinv.1, by simp, ?_⟩
          intro x hx y hy
          simp only [List.map_cons, List.map_nil, List.mem_singleton] at hy
          subst hy
          obtain ⟨f, hf, rfl⟩ := List.mem_map.mp hx
          exact hinv.2 f hf
      · intro f hf
        rw [hpub] at hf
        rw [hseq]
        cases loanOk with
        | false =>
          simp only [Bool.false_eq_true, if_false] at hf
          have := hinv.2 f hf
          omega
        | true =>
          simp only [if_true, List.mem_append, List.mem_singleton] at hf
          cases hf with
          | inl hmem => have := hinv.2 f hmem; omega
          | inr heq => subst heq; exact Nat.lt_succ_self _
    · rw [if_neg hpos] at hstep
      exact (Option.some.inj hstep) ▸ hinv

theorem runPubFrom_inv :
    ∀ events : List CapEvent, ∀ st st' : PubState, PubInv st →
    runPubFrom st events = some st' → PubInv st' := by
  intro events
  induction events with
  | nil =>
    intro st st' hinv hrun
    exact (Option.some.inj hrun) ▸ hinv
  | cons e rest ih =>
    intro st st' hinv hrun
    unfold runPubFrom at hrun
    split at hrun
    · exact absurd hrun (by simp)
    next st1 hs =>
      exact ih st1 st' (stepPublish_inv st st1 e.planes e.planeMeta e.loanOk hs hinv) hrun

theorem loopRun_all_true :
    ∀ pre : List Bool, (∀ b ∈ pre, b = true) →
    ∀ post : List Bool, loopRun (pre ++ false :: post) = some SubExit.cleanExit := by
  intro pre
  induction pre with
  | nil => intro _ _; rfl
  | cons b rest ih =>
    intro hpre post
    have hb : b = true := hpre b (List.mem_cons_self b rest)
    subst hb
    show loopRun (rest ++ false :: post) = some SubExit.cleanExit
    exact ih (fun x hx => hpre x (List.mem_cons_of_mem _ hx)) post

/-! ### Claim theorems -/

/-- C1: the spec claims an oversize frame is dropped entirely while
`sequence` still advances, giving the next publish a sequence two greater.
The code instead: when earlier planes were already accumulated, it
publishes a truncated frame carrying the current sequence (despite
logging "skipping") and advances `seq` by one; and when the very first
plane is oversize, it publishes nothing and does not advance `seq`.
This theorem evaluates the publish step on both failing inputs. -/
theorem oversize_skip_behavior :
    stepPublish ⟨0, []⟩ [[9], [0, 0, 0]] [1, MAX_FRAME_SIZE] true
      = some ⟨1, [⟨0, 1, [9]⟩]⟩ ∧
    stepPublish ⟨0, []⟩ [[9]] [MAX_FRAME_SIZE + 1] true = some ⟨0, []⟩ :=
  ⟨by decide, by decide⟩

/-- C2 (counterexample): the subscriber maps an `Nv21` first frame to the
encoder tag `"nv21"`, not to the claimed `"nv12"` fallback. -/
theorem nv21_tag_counterexample :
    ffmpeg_pix_fmt PixelFormat.Nv21 = "nv21" ∧ "nv21" ≠ "nv12" :=
  ⟨rfl, by decide⟩

/-- C2 (amended): the encoder pixel-format tag is `"nv12"` exactly for
`Nv12` and `Unknown` first frames, `"yuv420p"` exactly for `Yuv420`, and
`"nv21"` exactly for `Nv21`. -/
theorem encoder_tag_mapping (fmt : PixelFormat) :
    (ffmpeg_pix_fmt fmt = "nv12"
      ↔ fmt = PixelFormat.Nv12 ∨ fmt = PixelFormat.Unknown) ∧
    (ffmpeg_pix_fmt fmt = "yuv420p" ↔ fmt = PixelFormat.Yuv420) ∧
    (ffmpeg_pix_fmt fmt = "nv21" ↔ fmt = PixelFormat.Nv21) := by
  cases fmt <;> exact ⟨by decide, by decide, by decide⟩

/-- C3 (counterexample): the `repr(C)` byte size of `Frame` is not
`32 + MAX_FRAME_SIZE`: the field prefix before `data` holds seven fields
(36 bytes), not 32. -/
theorem frame_size_counterexample :
    structSize frameFields ≠ 32 + MAX_FRAME_SIZE := by decide

/-- C3 (amended): the byte size of the `Frame` record equals
`40 + MAX_FRAME_SIZE` (36-byte field prefix, the data array, then 4 bytes
of tail padding to the 8-byte struct alignment), and `data` is placed at
offset 36. -/
theorem frame_layout_size :
    structSize frameFields = 40 + MAX_FRAME_SIZE
      ∧ fieldOffset frameMetaFields 1 = 36 :=
  ⟨by decide, by decide⟩

/-- C4 (counterexample): the publisher does not clamp the copy to
`min(bytes_used, plane.length)`: with one 2-byte plane whose metadata
reports `bytes_used = 5`, the copy panics (`none`) instead of copying
2 bytes. -/
theorem plane_copy_min_counterexample :
    gatherPlanes [[7, 7]] [5] = none ∧ gatherPlanes [[7, 7]] [5] ≠ some [7, 7] :=
  ⟨by decide, by decide⟩

/-- C4 (amended): for every completed capture whose per-plane `bytes_used`
never exceeds the plane length and whose total fits in `MAX_FRAME_SIZE`,
the publisher copies exactly `bytes_used` bytes of each plane (the whole
plane when metadata for its index is absent), concatenated at a running
offset; when `bytes_used` exceeds the plane length the copy panics rather
than clamping. -/
theorem plane_copy_bytes_used (planes : List (List Nat)) (planeMeta : List Nat)
    (hin : ∀ j, j < planes.length →
      planeMeta.getD j ((planes.getD j []).length) ≤ (planes.getD j []).length)
    (hmax : planeSum planeMeta 0 planes ≤ MAX_FRAME_SIZE) :
    gatherPlanes planes planeMeta = some (planeTake planeMeta 0 planes) := by
  have h := gatherGo_spec planeMeta planes 0 []
    (by intro j hj; simpa using hin j hj)
    (by simpa using hmax)
  simpa [gatherPlanes] using h

/-- Witness for C4 (amended) at a concrete capture: two planes, metadata
only for the first. -/
theorem plane_copy_bytes_used_witness :
    gatherPlanes [[7, 7], [8]] [1] = some [7, 8] :=
  (plane_copy_bytes_used [[7, 7], [8]] [1] (by decide) (by decide)).trans
    (by decide)

/-- C5: for every supported 4:2:0 format, even width and height, stride at
least the width, and input data covering every source plane, the depadded
output exists and its byte length is exactly `width * height * 3 / 2`,
regardless of the stride. -/
theorem depad_size_law (fmt : PixelFormat) (d : List Nat) (w h s : Nat)
    (out : List Nat) (hw : Even w) (hh : Even h) (hws : w ≤ s)
    (hlen : requiredLen fmt s h ≤ d.length) :
    ∃ r, depadFn fmt d w h s out = some r ∧ r.length = w * h * 3 / 2 := by
  obtain ⟨a, ha⟩ := hw
  obtain ⟨b, hb⟩ := hh
  subst ha hb
  have harith : (a + a) * (b + b) * 3 / 2 = 6 * (a * b) := by
    rw [show (a + a) * (b + b) * 3 = 6 * (a * b) * 2 from by ring]
    omega
  have ha2 : (a + a) / 2 = a := by omega
  have hb2 : (b + b) / 2 = b := by omega
  cases fmt with
  | Yuv420 =>
    obtain ⟨r, hr, hlr⟩ := depad_yuv420_spec d (a + a) (b + b) s out hws
      (by simpa [requiredLen] using hlen)
    refine ⟨r, by simpa [depadFn] using hr, ?_⟩
    rw [hlr, hb2, ha2, harith]
    ring
  | Nv12 =>
    obtain ⟨r, hr, hlr⟩ := depad_nv12_spec d (a + a) (b + b) s out hws
      (by simpa [requiredLen] using hlen)
    refine ⟨r, by simpa [depadFn] using hr, ?_⟩
    rw [hlr, hb2, harith]
    ring
  | Nv21 =>
    obtain ⟨r, hr, hlr⟩ := depad_nv12_spec d (a + a) (b + b) s out hws
      (by simpa [requiredLen] using hlen)
    refine ⟨r, by simpa [depadFn] using hr, ?_⟩
    rw [hlr, hb2, harith]
    ring
  | Unknown =>
    obtain ⟨r, hr, hlr⟩ := depad_nv12_spec d (a + a) (b + b) s out hws
      (by simpa [requiredLen] using hlen)
    refine ⟨r, by simpa [depadFn] using hr, ?_⟩
    rw [hlr, hb2, harith]
    ring

/-- Witness for C5 at the spec's padded-Yuv420 example
(width 2, height 2, stride 4). -/
theorem depad_size_law_witness :
    ∃ r, depadFn PixelFormat.Yuv420 [1, 2, 0, 0, 3, 4, 0, 0, 5, 0, 6, 0]
      2 2 4 [] = some r ∧ r.length = 2 * 2 * 3 / 2 :=
  depad_size_law PixelFormat.Yuv420 [1, 2, 0, 0, 3, 4, 0, 0, 5, 0, 6, 0]
    2 2 4 [] (by decide) (by decide) (by decide) (by decide)

/-- C6: on already-compact input (`stride = width`, even dimensions, data
at least `width * height * 3 / 2` bytes), the depad algorithm of every
format returns exactly the first `width * height * 3 / 2` bytes of the
input. -/
theorem depad_compact_identity (fmt : PixelFormat) (d : List Nat) (w h : Nat)
    (out : List Nat) (hw : Even w) (hh : Even h)
    (hlen : w * h * 3 / 2 ≤ d.length) :
    depadFn fmt d w h w out = some (d.take (w * h * 3 / 2)) := by
  obtain ⟨a, ha⟩ := hw
  obtain ⟨b, hb⟩ := hh
  subst ha hb
  have harith : (a + a) * (b + b) * 3 / 2 = 6 * (a * b) := by
    rw [show (a + a) * (b + b) * 3 = 6 * (a * b) * 2 from by ring]
    omega
  have ha2 : (a + a) / 2 = a := by omega
  have hb2 : (b + b) / 2 = b := by omega
  cases fmt with
  | Yuv420 =>
    have heq : (a + a) * (b + b) + 2 * ((a + a) / 2 * ((b + b) / 2))
        = (a + a) * (b + b) * 3 / 2 := by
      rw [ha2, hb2, harith]
      ring
    simp only [depadFn]
    rw [← heq] at hlen ⊢
    exact depad_yuv420_compact d (a + a) (b + b) out hlen
  | Nv12 =>
    have heq : (a + a) * (b + b) + (a + a) * ((b + b) / 2)
        = (a + a) * (b + b) * 3 / 2 := by
      rw [hb2, harith]
      ring
    simp only [depadFn]
    rw [← heq] at hlen ⊢
    exact depad_nv12_compact d (a + a) (b + b) out hlen
  | Nv21 =>
    have heq : (a + a) * (b + b) + (a + a) * ((b + b) / 2)
        = (a + a) * (b + b) * 3 / 2 := by
      rw [hb2, harith]
      ring
    simp only [depadFn]
    rw [← heq] at hlen ⊢
    exact depad_nv12_compact d (a + a) (b + b) out hlen
  | Unknown =>
    have heq : (a + a) * (b + b) + (a + a) * ((b + b) / 2)
        = (a + a) * (b + b) * 3 / 2 := by
      rw [hb2, harith]
      ring
    simp only [depadFn]
    rw [← heq] at hlen ⊢
    exact depad_nv12_compact d (a + a) (b + b) out hlen

/-- Witness for C6 at a compact NV12 input (width 2, height 2, stride 2). -/
theorem depad_compact_identity_witness :
    depadFn PixelFormat.Nv12 [1, 2, 3, 4, 5, 6] 2 2 2 []
      = some (List.take (2 * 2 * 3 / 2) [1, 2, 3, 4, 5, 6]) :=
  depad_compact_identity PixelFormat.Nv12 [1, 2, 3, 4, 5, 6] 2 2 []
    (by decide) (by decide) (by decide)

/-- C7: over any run of the capture loop from its initial state
(`seq = 0`, nothing published), the sequence values written into the
published frames are strictly increasing: any frame published earlier
carries a strictly smaller `sequence` than any frame published later. -/
theorem published_sequence_strictly_increasing (events : List CapEvent)
    (st : PubState) (h : runPub events = some st) :
    List.Pairwise (· < ·) (st.published.map PubFrame.sequence) :=
  (runPubFrom_inv events ⟨0, []⟩ st ⟨List.Pairwise.nil, by simp⟩ h).1

/-- Witness for C7 on a two-capture run. -/
theorem published_sequence_strictly_increasing_witness :
    List.Pairwise (· < ·)
      ((PubState.mk 2 [PubFrame.mk 0 1 [1], PubFrame.mk 1 1 [2]]).published.map
        PubFrame.sequence) :=
  published_sequence_strictly_increasing
    [CapEvent.mk [[1]] [] true, CapEvent.mk [[2]] [] true] _ (by decide)

/-- C8 (counterexample): a failed write of the very first frame is
propagated out of `main` by `?` (error exit), not treated as a clean
terminator. -/
theorem first_write_error_counterexample :
    subSession false [] = some SubExit.errExit
      ∧ SubExit.errExit ≠ SubExit.cleanExit :=
  ⟨rfl, by decide⟩

/-- C8 (amended): every failed write inside the steady-state loop is a
clean terminator (break, drop the pipe handle, wait for the child, exit
successfully), but a failed write of the first frame propagates the write
error instead. -/
theorem write_error_session_exit (pre post : List Bool)
    (hpre : ∀ b ∈ pre, b = true) :
    subSession true (pre ++ false :: post) = some SubExit.cleanExit ∧
    subSession false (pre ++ false :: post) = some SubExit.errExit :=
  ⟨loopRun_all_true pre hpre post, rfl⟩

/-- Witness for C8 (amended): one successful loop write, then a failure. -/
theorem write_error_session_exit_witness :
    subSession true ([true] ++ false :: []) = some SubExit.cleanExit ∧
    subSession false ([true] ++ false :: []) = some SubExit.errExit :=
  write_error_session_exit [true] [] (by decide)

/-- C9: under even height, stride at least width, and input data covering
every source plane of the format's strategy, every slice taken by the
depad function is in bounds, so it never panics (`isSome`). -/
theorem depad_in_bounds (fmt : PixelFormat) (d : List Nat) (w h s : Nat)
    (out : List Nat) (hh : Even h) (hws : w ≤ s)
    (hlen : requiredLen fmt s h ≤ d.length) :
    (depadFn fmt d w h s out).isSome := by
  cases fmt with
  | Yuv420 =>
    obtain ⟨r, hr, _⟩ := depad_yuv420_spec d w h s out hws
      (by simpa [requiredLen] using hlen)
    simp [depadFn, hr]
  | Nv12 =>
    obtain ⟨r, hr, _⟩ := depad_nv12_spec d w h s out hws
      (by simpa [requiredLen] using hlen)
    simp [depadFn, hr]
  | Nv21 =>
    obtain ⟨r, hr, _⟩ := depad_nv12_spec d w h s out hws
      (by simpa [requiredLen] using hlen)
    simp [depadFn, hr]
  | Unknown =>
    obtain ⟨r, hr, _⟩ := depad_nv12_spec d w h s out hws
      (by simpa [requiredLen] using hlen)
    simp [depadFn, hr]

/-- Witness for C9 at an Unknown-format padded input
(width 2, height 2, stride 4). -/
theorem depad_in_bounds_witness :
    (depadFn PixelFormat.Unknown [1, 2, 0, 0, 3, 4, 0, 0, 5, 6, 0, 0]
      2 2 4 []).isSome :=
  depad_in_bounds PixelFormat.Unknown [1, 2, 0, 0, 3, 4, 0, 0, 5, 6, 0, 0]
    2 2 4 [] (by decide) (by decide) (by decide)

/-- C10: the depadded bytes depend only on `data`, `width`, `height` and
`stride`, never on the prior contents of the reused scratch buffer: both
depad functions clear the scratch buffer before use, so any two initial
scratch states give identical results. -/
theorem depad_scratch_independent (d : List Nat) (w h s : Nat)
    (out1 out2 : List Nat) :
    depad_yuv420 d w h s out1 = depad_yuv420 d w h s out2 ∧
    depad_nv12 d w h s out1 = depad_nv12 d w h s out2 :=
  ⟨rfl, rfl⟩
